import Mathlib

/-!
Verification of the update-orchestration module of `react-native-ota-hot-update`
(`src/index.tsx`), shallowly embedded in Lean 4.

Embedding conventions:
* Collaborator calls (native module, download manager, git transport, version
  store) are modelled by an environment record holding the result each call
  would produce; a JavaScript promise rejection is an `Except.error` carrying
  the rejection reason in its string form.
* The orchestrator functions are translated to pure functions from options and
  environment to a list of observable events (collaborator invocations and
  outcome-callback notifications, in program order) plus, where relevant, the
  rejection escaping the orchestrator's own returned promise.
* JavaScript numbers are modelled as integers plus an explicit NaN marker
  (`JsNum`); floating-point values are outside the model.  String-to-number
  coercion (`+rawVersion`) is modelled for decimal-integer strings, with all
  other non-empty non-numeric strings mapped to NaN.
* `JSON.stringify` / `JSON.parse` are not part of the repository's sources;
  they are modelled from the spec ("Metadata (de)serialization", §3 and §7 of
  the design) as an executable serializer and parser over a `Json` value type
  restricted to integer numbers and whitespace-free texts.
* User-supplied callbacks are modelled as non-throwing notifications (events).
-/

/-- Modelled from the spec: the JSON-representable metadata universe
`object | number | string | boolean | null` (spec §3), with numbers restricted
to integers and objects/arrays carrying their fields in order. -/
inductive Json where
  | null : Json
  | bool (b : Bool) : Json
  | num (n : Int) : Json
  | str (s : String) : Json
  | arr (elems : List Json) : Json
  | obj (fields : List (String × Json)) : Json

/-- Decimal digit test on characters. -/
def isDigit (c : Char) : Bool := 48 ≤ c.toNat && c.toNat ≤ 57

/-- The character for a single decimal digit. -/
def digitChar (n : Nat) : Char := Char.ofNat (48 + n)

/-- Lower-case hexadecimal digit character for a value below 16. -/
def hexChar (n : Nat) : Char :=
  if n < 10 then digitChar n else Char.ofNat (97 + (n - 10))

/-- Decimal digit list of a natural number, most significant first. -/
def natDigits (n : Nat) : List Char :=
  if h : n < 10 then [digitChar n]
  else natDigits (n / 10) ++ [digitChar (n % 10)]
decreasing_by
  have : 10 ≤ n := Nat.le_of_not_lt h
  exact Nat.div_lt_self (by omega) (by omega)

/-- Decimal character list of an integer, as JavaScript prints integers. -/
def intChars (i : Int) : List Char :=
  if i < 0 then '-' :: natDigits i.natAbs else natDigits i.natAbs

/-- JSON escape of one character, as `JSON.stringify` produces it:
quote and backslash get a backslash escape, the common control characters
their short escapes, the remaining control characters a `\u00XX` escape,
everything else stands verbatim. -/
def escapeChar (c : Char) : List Char :=
  if c = '"' then ['\\', '"']
  else if c = '\\' then ['\\', '\\']
  else if c = '\n' then ['\\', 'n']
  else if c = '\t' then ['\\', 't']
  else if c = '\r' then ['\\', 'r']
  else if c.toNat = 8 then ['\\', 'b']
  else if c.toNat = 12 then ['\\', 'f']
  else if c.toNat < 32 then
    ['\\', 'u', '0', '0', hexChar (c.toNat / 16), hexChar (c.toNat % 16)]
  else [c]

/-- JSON escape of a character list. -/
def escapeString (s : List Char) : List Char := s.flatMap escapeChar

/-- Serialized form of a JSON string: quotes around the escaped content. -/
def serializeStr (s : List Char) : List Char := '"' :: (escapeString s ++ ['"'])

mutual

/-- Modelled from the spec: `JSON.stringify` on the metadata universe,
producing the canonical whitespace-free JSON text as a character list. -/
def serializeChars : Json → List Char
  | .null => "null".data
  | .bool true => "true".data
  | .bool false => "false".data
  | .num i => intChars i
  | .str s => serializeStr s.data
  | .arr [] => ['[', ']']
  | .arr (x :: xs) => '[' :: (serializeChars x ++ serializeElemsTail xs ++ [']'])
  | .obj [] => ['\x7b', '\x7d']
  | .obj (kv :: fs) =>
      '\x7b' :: (serializeStr kv.1.data ++ ':' :: serializeChars kv.2 ++
        serializeFieldsTail fs ++ ['\x7d'])

/-- Comma-prefixed serialization of the remaining array elements. -/
def serializeElemsTail : List Json → List Char
  | [] => []
  | j :: js => (',' :: serializeChars j) ++ serializeElemsTail js

/-- Comma-prefixed serialization of the remaining object fields. -/
def serializeFieldsTail : List (String × Json) → List Char
  | [] => []
  | kv :: fs =>
      ',' :: (serializeStr kv.1.data ++ ':' :: serializeChars kv.2 ++
        serializeFieldsTail fs)

end

/-- The JSON text of a metadata value, as a string. -/
def Json.stringify (j : Json) : String := ⟨serializeChars j⟩

/-- Hexadecimal digit value of a character, if any (both cases accepted). -/
def hexVal (c : Char) : Option Nat :=
  if 48 ≤ c.toNat ∧ c.toNat ≤ 57 then some (c.toNat - 48)
  else if 97 ≤ c.toNat ∧ c.toNat ≤ 102 then some (c.toNat - 87)
  else if 65 ≤ c.toNat ∧ c.toNat ≤ 70 then some (c.toNat - 55)
  else none

/-- Body of a JSON string literal after the opening quote: decodes escapes,
stops at the closing quote, rejects raw control characters and bad escapes. -/
def parseStrBody : List Char → Option (List Char × List Char)
  | [] => none
  | c :: r =>
    if c = '"' then some ([], r)
    else if c = '\\' then
      match r with
      | [] => none
      | e :: r2 =>
        if e = '"' then (parseStrBody r2).map (fun p => ('"' :: p.1, p.2))
        else if e = '\\' then (parseStrBody r2).map (fun p => ('\\' :: p.1, p.2))
        else if e = '/' then (parseStrBody r2).map (fun p => ('/' :: p.1, p.2))
        else if e = 'n' then (parseStrBody r2).map (fun p => ('\n' :: p.1, p.2))
        else if e = 't' then (parseStrBody r2).map (fun p => ('\t' :: p.1, p.2))
        else if e = 'r' then (parseStrBody r2).map (fun p => ('\r' :: p.1, p.2))
        else if e = 'b' then (parseStrBody r2).map (fun p => (Char.ofNat 8 :: p.1, p.2))
        else if e = 'f' then (parseStrBody r2).map (fun p => (Char.ofNat 12 :: p.1, p.2))
        else if e = 'u' then
          match r2 with
          | a :: b :: c2 :: d :: r3 =>
            match hexVal a, hexVal b, hexVal c2, hexVal d with
            | some x1, some x2, some x3, some x4 =>
              (parseStrBody r3).map
                (fun p => (Char.ofNat (4096 * x1 + 256 * x2 + 16 * x3 + x4) :: p.1, p.2))
            | _, _, _, _ => none
          | _ => none
        else none
    else if c.toNat < 32 then none
    else (parseStrBody r).map (fun p => (c :: p.1, p.2))

/-- Longest digit prefix of a character list, with the remainder. -/
def takeDigits : List Char → List Char × List Char
  | [] => ([], [])
  | c :: r =>
    if isDigit c then
      let p := takeDigits r
      (c :: p.1, p.2)
    else ([], c :: r)

/-- Numeric value of a decimal digit list. -/
def digitsVal (ds : List Char) : Nat :=
  ds.foldl (fun a c => 10 * a + (c.toNat - 48)) 0

mutual

/-- Modelled from the spec: recursive-descent `JSON.parse` on whitespace-free
texts, over the same value universe as the serializer.  The fuel argument
bounds the recursion depth; `Json.parse` supplies one unit per input
character, which the round-trip theorems show is always enough. -/
def parseVal : Nat → List Char → Option (Json × List Char)
  | 0, _ => none
  | _ + 1, [] => none
  | f + 1, c :: r =>
    if isDigit c then
      let p := takeDigits (c :: r)
      some (.num (Int.ofNat (digitsVal p.1)), p.2)
    else if c = '-' then
      match r with
      | [] => none
      | d :: _ =>
        if isDigit d then
          let p := takeDigits r
          some (.num (-(Int.ofNat (digitsVal p.1))), p.2)
        else none
    else if c = '"' then
      (parseStrBody r).map (fun p => (.str ⟨p.1⟩, p.2))
    else if c = '[' then
      match r with
      | [] => none
      | d :: r' =>
        if d = ']' then some (.arr [], r')
        else
          match parseVal f (d :: r') with
          | some (v, r1) =>
            match parseElemsTail f r1 with
            | some (vs, r2) => some (.arr (v :: vs), r2)
            | none => none
          | none => none
    else if c = '\x7b' then
      match r with
      | [] => none
      | d :: _ =>
        if d = '\x7d' then some (.obj [], r.tail)
        else
          match parseField f r with
          | some (kv, r1) =>
            match parseFieldsTail f r1 with
            | some (fs, r2) => some (.obj (kv :: fs), r2)
            | none => none
          | none => none
    else if c = 'n' then
      match r with
      | 'u' :: 'l' :: 'l' :: r' => some (.null, r')
      | _ => none
    else if c = 't' then
      match r with
      | 'r' :: 'u' :: 'e' :: r' => some (.bool true, r')
      | _ => none
    else if c = 'f' then
      match r with
      | 'a' :: 'l' :: 's' :: 'e' :: r' => some (.bool false, r')
      | _ => none
    else none

/-- One `"key":value` object field. -/
def parseField : Nat → List Char → Option ((String × Json) × List Char)
  | 0, _ => none
  | _ + 1, [] => none
  | f + 1, c :: r =>
    if c = '"' then
      match parseStrBody r with
      | some (k, r1) =>
        match r1 with
        | c1 :: r2 =>
          if c1 = ':' then
            match parseVal f r2 with
            | some (v, r3) => some (((⟨k⟩, v), r3))
            | none => none
          else none
        | [] => none
      | none => none
    else none

/-- Array elements after the first one: a comma then a value, repeatedly,
until the closing bracket. -/
def parseElemsTail : Nat → List Char → Option (List Json × List Char)
  | 0, _ => none
  | _ + 1, [] => none
  | f + 1, c :: r =>
    if c = ']' then some ([], r)
    else if c = ',' then
      match parseVal f r with
      | some (v, r1) =>
        match parseElemsTail f r1 with
        | some (vs, r2) => some (v :: vs, r2)
        | none => none
      | none => none
    else none

/-- Object fields after the first one: a comma then a field, repeatedly,
until the closing brace. -/
def parseFieldsTail : Nat → List Char → Option (List (String × Json) × List Char)
  | 0, _ => none
  | _ + 1, [] => none
  | f + 1, c :: r =>
    if c = '\x7d' then some ([], r)
    else if c = ',' then
      match parseField f r with
      | some (kv, r1) =>
        match parseFieldsTail f r1 with
        | some (fs, r2) => some (kv :: fs, r2)
        | none => none
      | none => none
    else none

end

/-- Modelled from the spec: `JSON.parse` on a whole string; fails unless the
text is a single JSON value consuming the whole input. -/
def Json.parse (s : String) : Option Json :=
  match parseVal (s.data.length + 1) s.data with
  | some (v, []) => some v
  | _ => none

/-- The next character, if any, is not a digit; the greedy number parser
stops exactly here. -/
def noDigitHead : List Char → Prop
  | [] => True
  | c :: _ => isDigit c = false

/-- Embeds `setUpdateMetadata` (src/index.tsx:86-93): serializes the metadata
and hands the text to the native store, returning the stored string.  The
`catch` branch of the source returns a rejected promise only when
`JSON.stringify` throws, which cannot happen for the acyclic values of
`Json`, so the model returns the serialized text directly. -/
def setUpdateMetadata (metadata : Json) : String := Json.stringify metadata

/-- Embeds `getUpdateMetadata` (src/index.tsx:66-75): reads the stored
metadata string (`none` models a native `null`), treats a falsy result
(null or empty string) as `null`, otherwise parses it, turning a parse
failure into the rejection `Error parsing metadata`. -/
def getUpdateMetadata (metadataString : Option String) : Except String Json :=
  match metadataString with
  | none => .ok .null
  | some s =>
    if s = "" then .ok .null
    else
      match Json.parse s with
      | some v => .ok v
      | none => .error "Error parsing metadata"

/-- A JavaScript number in the positions the orchestrator uses: an integer
or NaN.  Floating-point values are outside the model. -/
inductive JsNum where
  | num (i : Int) : JsNum
  | nan : JsNum
deriving DecidableEq, Repr

/-- Embeds the unary-plus coercion in `getVersionAsNumber`
(src/index.tsx:79-82) on decimal-integer strings: the empty string coerces
to 0, a (possibly negated) digit string to its value, and any other string
is modelled as NaN. -/
def jsPlus (s : String) : JsNum :=
  match s.data with
  | [] => .num 0
  | c :: rest =>
    if c = '-' then
      if rest ≠ [] ∧ rest.all isDigit then .num (-(Int.ofNat (digitsVal rest)))
      else .nan
    else if (c :: rest).all isDigit then .num (Int.ofNat (digitsVal (c :: rest)))
    else .nan

/-- JavaScript `a <= b` with NaN on the right: false whenever b is NaN. -/
def jsLe (a : Int) : JsNum → Bool
  | .num b => decide (a ≤ b)
  | .nan => false

/-- JavaScript string conversion of an integer. -/
def jsIntToString (i : Int) : String := ⟨intChars i⟩

/-- JavaScript string conversion of a `JsNum`. -/
def jsNumToString : JsNum → String
  | .num i => jsIntToString i
  | .nan => "NaN"

/-- `JSON.stringify` applied to a JavaScript string: the quoted escaped
text. -/
def jsStringifyString (s : String) : String := Json.stringify (.str s)

/-- JavaScript truthiness of a `Json` value ("option?.metadata" check). -/
def jsonTruthy : Json → Bool
  | .null => false
  | .bool b => b
  | .num i => decide (i ≠ 0)
  | .str s => decide (s ≠ "")
  | .arr _ => true
  | .obj _ => true

/-- JavaScript truthiness of the optional `version` argument
("if (version)" in the source): absent or zero is falsy. -/
def truthyVersion : Option Int → Bool
  | some v => decide (v ≠ 0)
  | none => false

/-- JavaScript `x || d` on an optional number: absent or zero yields the
default. -/
def jsOrDefault (x : Option Nat) (d : Nat) : Nat :=
  match x with
  | some n => if n = 0 then d else n
  | none => d

/-- Modelled from the spec: the archive-flow options (`UpdateOption` of
`./type`, spec §3) restricted to the fields the orchestrator reads.
Progress and outcome callbacks are modelled as events, not fields. -/
structure UpdateOption where
  headers : Option String
  metadata : Option Json
  extensionBundle : Option String
  restartAfterInstall : Bool
  restartDelay : Option Nat

/-- Modelled from the spec: results the collaborators of the archive flow
would produce for one invocation (spec §6): the version-store read, the
transport fetch (resolving to a local path) and the native bundle
activation.  An `Except.error` is a promise rejection. -/
structure ArchiveEnv where
  getCurrentVersion : Except String String
  fetch : Except String String
  setupBundle : Except String Bool

/-- Observable events of the archive flow and of `removeBundle`, in program
order: collaborator invocations, persisted writes, outcome-callback
notifications, the error log and the scheduled restart. -/
inductive AEvent where
  | deleteBundle : AEvent
  | getVersionRead : AEvent
  | fetchStarted (uri : String) (headers : Option String) : AEvent
  | setupBundle (path : String) (extensionHint : Option String) : AEvent
  | setCurrentVersion (value : String) : AEvent
  | setUpdateMetadataWrite (value : String) : AEvent
  | updateSuccess : AEvent
  | updateFail (detail : Option String) : AEvent
  | logError (detail : Option String) : AEvent
  | scheduleRestart (delayMs : Nat) : AEvent
deriving DecidableEq, Repr

/-- Embeds the `installFail` helper (src/index.tsx:109-112): notifies the
failure callback with the `JSON.stringify`-ed detail and writes a console
log.  `none` models the JavaScript `undefined` detail, for which
`JSON.stringify` also yields `undefined`. -/
def installFailEvents (detail : Option String) : List AEvent :=
  [.updateFail (detail.map jsStringifyString), .logError (detail.map jsStringifyString)]

/-- Embeds the `try` block of `downloadBundleUri` (src/index.tsx:133-163),
with the surrounding `catch` folded in: any collaborator rejection inside
the block becomes an `installFail` notification. -/
def downloadTry (uri : String) (version : Option Int) (opt : UpdateOption)
    (env : ArchiveEnv) : List AEvent :=
  match env.fetch with
  | .error e => [.fetchStarted uri opt.headers] ++ installFailEvents (some e)
  | .ok path =>
    if path = "" then
      [.fetchStarted uri opt.headers]
        ++ installFailEvents (some ("Cannot download bundle file: " ++ path))
    else
      match env.setupBundle with
      | .error e =>
        [.fetchStarted uri opt.headers, .setupBundle path opt.extensionBundle]
          ++ installFailEvents (some e)
      | .ok success =>
        if success then
          [.fetchStarted uri opt.headers, .setupBundle path opt.extensionBundle]
            ++ (if truthyVersion version then
                  [.setCurrentVersion (jsIntToString (version.getD 0))]
                else [])
            ++ (match opt.metadata with
                | some m =>
                  if jsonTruthy m then [.setUpdateMetadataWrite (setUpdateMetadata m)]
                  else []
                | none => [])
            ++ [.updateSuccess]
            ++ (if opt.restartAfterInstall then
                  [.scheduleRestart (jsOrDefault opt.restartDelay 300)]
                else [])
        else
          [.fetchStarted uri opt.headers, .setupBundle path opt.extensionBundle]
            ++ installFailEvents none

/-- The result of one `downloadBundleUri` invocation: the events in program
order, and the rejection escaping its returned promise, if any. -/
structure ArchiveResult where
  events : List AEvent
  rejected : Option String
deriving DecidableEq, Repr

/-- The message of the version gate rejection, carrying the current
version (src/index.tsx:125-130). -/
def versionGateMessage (current : JsNum) : String :=
  "Please give a bigger version than the current version, the current version now has setted by: "
    ++ jsNumToString current

/-- Embeds `downloadBundleUri` (src/index.tsx:113-164).  The URL check and
the version gate run before the `try` block: a rejected version-store read
therefore escapes as a rejection of the orchestrator's own promise. -/
def downloadBundleUri (uri : String) (version : Option Int) (opt : UpdateOption)
    (env : ArchiveEnv) : ArchiveResult :=
  if uri = "" then
    { events := installFailEvents (some "Please give a valid URL!"), rejected := none }
  else if truthyVersion version then
    match env.getCurrentVersion with
    | .error e => { events := [.getVersionRead], rejected := some e }
    | .ok raw =>
      let currentVersion := jsPlus raw
      if jsLe (version.getD 0) currentVersion then
        { events := [.getVersionRead]
            ++ installFailEvents (some (versionGateMessage currentVersion)),
          rejected := none }
      else
        { events := [.getVersionRead] ++ downloadTry uri version opt env,
          rejected := none }
  else
    { events := downloadTry uri version opt env, rejected := none }

/-- Embeds `removeBundle` (src/index.tsx:97-108).  The native deletion
result drives the `.then` continuation; a rejected deletion skips it.  In
the source the version reset sits inside the `data && restartAfterRemoved`
branch, after the restart timer. -/
def removeBundle (restartAfterRemoved : Bool) (deleteResult : Except String Bool) :
    List AEvent :=
  match deleteResult with
  | .error _ => [.deleteBundle]
  | .ok data =>
    .deleteBundle ::
      (if data && restartAfterRemoved then
        [.scheduleRestart 300]
          ++ (if data then [.setCurrentVersion (jsIntToString 0)] else [])
      else [])

def isFetchStarted : AEvent → Bool
  | .fetchStarted _ _ => true
  | _ => false

def isSetupBundle : AEvent → Bool
  | .setupBundle _ _ => true
  | _ => false

def isSetCurrentVersion : AEvent → Bool
  | .setCurrentVersion _ => true
  | _ => false

def isSetUpdateMetadataWrite : AEvent → Bool
  | .setUpdateMetadataWrite _ => true
  | _ => false

def isUpdateSuccess : AEvent → Bool
  | .updateSuccess => true
  | _ => false

def isUpdateFail : AEvent → Bool
  | .updateFail _ => true
  | _ => false

def isLogError : AEvent → Bool
  | .logError _ => true
  | _ => false

def isScheduleRestartA : AEvent → Bool
  | .scheduleRestart _ => true
  | _ => false

/-- Whether an `Except` models a resolved promise. -/
def isOkResult : Except String α → Bool
  | .ok _ => true
  | .error _ => false

/-- Modelled from the spec: the git-flow options (`UpdateGitOption` of
`./type`, spec §3) restricted to the fields the orchestrator reads; the
outcome callbacks are modelled as events. -/
structure UpdateGitOption where
  url : String
  bundlePath : String
  branch : Option String
  folderName : Option String
  restartAfterInstall : Bool
deriving DecidableEq, Repr

/-- Result record of a git pull, as the transport reports it. -/
structure PullResult where
  success : Bool
  msg : String
deriving DecidableEq, Repr

/-- Result record of a git clone: the optional `bundle` is the resulting
local bundle path. -/
structure CloneResult where
  success : Bool
  msg : String
  bundle : Option String
deriving DecidableEq, Repr

/-- Modelled from the spec: results the git transport and the activation
service would produce for one `checkForGitUpdate` invocation (spec §6).
`getConfig` resolves to the configuration object when one exists (a present
object is always truthy), `getBranchName` to the branch name or null.  An
`Except.error` is a promise rejection. -/
structure GitEnv where
  getConfig : Except String (Option String)
  getBranchName : Except String (Option String)
  pullUpdate : Except String PullResult
  cloneRepo : Except String CloneResult
  setExactBundlePath : Except String Bool

/-- Observable events of the git flow, in program order. -/
inductive GEvent where
  | queryConfigAndBranch : GEvent
  | pullStarted (branch : String) : GEvent
  | cloneStarted (url : String) (branch : Option String) (bundlePath : String) : GEvent
  | setExactBundle (path : String) : GEvent
  | onPullSuccess : GEvent
  | onPullFailed (msg : String) : GEvent
  | onCloneSuccess : GEvent
  | onCloneFailed (msg : String) : GEvent
  | onFinishProgress : GEvent
  | scheduleRestart (delayMs : Nat) : GEvent
deriving DecidableEq, Repr

/-- JavaScript truthiness of a nullable string (branch name, bundle path):
null and the empty string are falsy. -/
def truthyStrOpt : Option String → Bool
  | some s => decide (s ≠ "")
  | none => false

/-- The message of the precondition failure, in the `e.toString()` form the
top-level catch reports: a thrown `Error` stringifies with the `Error: `
prefix (src/index.tsx:167-168, 210-211). -/
def gitPreconditionMessage : String := "Error: url or bundlePath should not be null"

/-- Embeds the `try` block of `checkForGitUpdate` (src/index.tsx:166-209):
the events it emits, and the exception reaching the top-level catch, if
any.  Collaborator rejections carry their reasons in string form. -/
def checkForGitUpdateInner (o : UpdateGitOption) (env : GitEnv) :
    List GEvent × Option String :=
  if o.url = "" ∨ o.bundlePath = "" then
    ([], some gitPreconditionMessage)
  else
    match env.getConfig, env.getBranchName with
    | .error e, _ => ([.queryConfigAndBranch], some e)
    | .ok _, .error e => ([.queryConfigAndBranch], some e)
    | .ok config, .ok branch =>
      if truthyStrOpt branch && config.isSome then
        let b := branch.getD ""
        match env.pullUpdate with
        | .error e => ([.queryConfigAndBranch, .pullStarted b], some e)
        | .ok pull =>
          if pull.success then
            ([.queryConfigAndBranch, .pullStarted b, .onPullSuccess]
              ++ (if o.restartAfterInstall then [.scheduleRestart 300] else []), none)
          else
            ([.queryConfigAndBranch, .pullStarted b, .onPullFailed pull.msg], none)
      else
        match env.cloneRepo with
        | .error e =>
          ([.queryConfigAndBranch, .cloneStarted o.url o.branch o.bundlePath], some e)
        | .ok clone =>
          if clone.success && truthyStrOpt clone.bundle then
            let bp := clone.bundle.getD ""
            match env.setExactBundlePath with
            | .error e =>
              ([.queryConfigAndBranch, .cloneStarted o.url o.branch o.bundlePath,
                .setExactBundle bp], some e)
            | .ok _ =>
              ([.queryConfigAndBranch, .cloneStarted o.url o.branch o.bundlePath,
                .setExactBundle bp, .onCloneSuccess]
                ++ (if o.restartAfterInstall then [.scheduleRestart 300] else []), none)
          else
            ([.queryConfigAndBranch, .cloneStarted o.url o.branch o.bundlePath,
              .onCloneFailed clone.msg], none)

/-- The result of one `checkForGitUpdate` invocation: all events, and the
rejection escaping its promise (always none: the catch and finally blocks
swallow every exception). -/
structure GitResult where
  events : List GEvent
  rejected : Option String
deriving DecidableEq, Repr

/-- Embeds `checkForGitUpdate` (src/index.tsx:165-215): the try block, the
top-level catch routing any exception to `onCloneFailed(e.toString())`, and
the finally block always notifying `onFinishProgress`. -/
def checkForGitUpdate (o : UpdateGitOption) (env : GitEnv) : GitResult :=
  let r := checkForGitUpdateInner o env
  { events := r.1
      ++ (match r.2 with
          | some e => [.onCloneFailed e]
          | none => [])
      ++ [.onFinishProgress],
    rejected := none }

def isPullStarted : GEvent → Bool
  | .pullStarted _ => true
  | _ => false

def isCloneStarted : GEvent → Bool
  | .cloneStarted _ _ _ => true
  | _ => false

def isOnPullSuccess : GEvent → Bool
  | .onPullSuccess => true
  | _ => false

def isOnPullFailed : GEvent → Bool
  | .onPullFailed _ => true
  | _ => false

def isOnCloneSuccess : GEvent → Bool
  | .onCloneSuccess => true
  | _ => false

def isOnCloneFailed : GEvent → Bool
  | .onCloneFailed _ => true
  | _ => false

def isOnFinishProgress : GEvent → Bool
  | .onFinishProgress => true
  | _ => false

/-- Concrete option and environment records used by the witnesses and
counterexamples below. -/
def optPlain : UpdateOption :=
  { headers := none, metadata := none, extensionBundle := none,
    restartAfterInstall := false, restartDelay := none }

def envHappy : ArchiveEnv :=
  { getCurrentVersion := .ok "5", fetch := .ok "/tmp/bundle.zip",
    setupBundle := .ok true }

def envCurrent3 : ArchiveEnv :=
  { getCurrentVersion := .ok "3", fetch := .ok "/tmp/bundle.zip",
    setupBundle := .ok true }

def envStoreDown : ArchiveEnv :=
  { getCurrentVersion := .error "version store read failed",
    fetch := .ok "/tmp/bundle.zip", setupBundle := .ok true }

def envSetupFalse : ArchiveEnv :=
  { getCurrentVersion := .ok "5", fetch := .ok "/tmp/bundle.zip",
    setupBundle := .ok false }

def optMetaZero : UpdateOption :=
  { headers := none, metadata := some (.num 0), extensionBundle := none,
    restartAfterInstall := false, restartDelay := none }

def optMetaObj : UpdateOption :=
  { headers := none, metadata := some (.obj [("flag", .bool true)]),
    extensionBundle := none, restartAfterInstall := false, restartDelay := none }

def optRestartZero : UpdateOption :=
  { headers := none, metadata := none, extensionBundle := none,
    restartAfterInstall := true, restartDelay := some 0 }

def gitOptMain : UpdateGitOption :=
  { url := "https://git.example/repo.git", bundlePath := "output/main.jsbundle",
    branch := some "main", folderName := none, restartAfterInstall := false }

def gitEnvPull : GitEnv :=
  { getConfig := .ok (some "remote.origin.url"),
    getBranchName := .ok (some "main"),
    pullUpdate := .ok { success := true, msg := "" },
    cloneRepo := .ok { success := false, msg := "unused", bundle := none },
    setExactBundlePath := .ok true }

def gitOptNoUrl : UpdateGitOption :=
  { url := "", bundlePath := "output/main.jsbundle", branch := none,
    folderName := none, restartAfterInstall := false }

theorem charToNat_ofNat_small (n : Nat) (h : n < 55296) : (Char.ofNat n).toNat = n := by
  have hv : n.isValidChar := Or.inl h
  rw [Char.ofNat, dif_pos hv]
  rfl

theorem digitChar_toNat (d : Nat) (h : d < 10) : (digitChar d).toNat = 48 + d := by
  unfold digitChar
  exact charToNat_ofNat_small _ (by omega)

theorem isDigit_digitChar (d : Nat) (h : d < 10) : isDigit (digitChar d) = true := by
  simp only [isDigit, digitChar_toNat d h, Bool.and_eq_true, decide_eq_true_eq]
  omega

theorem natDigits_all_digits (n : Nat) : ∀ c ∈ natDigits n, isDigit c = true := by
  induction n using Nat.strong_induction_on with
  | _ n ih =>
    rw [natDigits]
    split
    case isTrue h =>
      intro c hc
      simp only [List.mem_singleton] at hc
      subst hc
      exact isDigit_digitChar n h
    case isFalse h =>
      intro c hc
      simp only [List.mem_append, List.mem_singleton] at hc
      rcases hc with hc | hc
      · exact ih (n / 10) (Nat.div_lt_self (by omega) (by omega)) c hc
      · subst hc
        exact isDigit_digitChar _ (Nat.mod_lt _ (by omega))

theorem natDigits_ne_nil (n : Nat) : natDigits n ≠ [] := by
  rw [natDigits]
  split <;> simp

theorem digitsVal_append_one (ds : List Char) (c : Char) :
    digitsVal (ds ++ [c]) = 10 * digitsVal ds + (c.toNat - 48) := by
  simp [digitsVal, List.foldl_append]

theorem digitsVal_natDigits (n : Nat) : digitsVal (natDigits n) = n := by
  induction n using Nat.strong_induction_on with
  | _ n ih =>
    rw [natDigits]
    split
    case isTrue h =>
      simp only [digitsVal, List.foldl_cons, List.foldl_nil, digitChar_toNat n h]
      omega
    case isFalse h =>
      rw [digitsVal_append_one, ih (n / 10) (Nat.div_lt_self (by omega) (by omega)),
        digitChar_toNat _ (Nat.mod_lt _ (by omega))]
      omega

theorem takeDigits_exact (ds rest : List Char)
    (hds : ∀ c ∈ ds, isDigit c = true) (hr : noDigitHead rest) :
    takeDigits (ds ++ rest) = (ds, rest) := by
  induction ds with
  | nil =>
    simp only [List.nil_append]
    cases rest with
    | nil => rfl
    | cons c r =>
      have hc : isDigit c = false := hr
      simp [takeDigits, hc]
  | cons c cs ih =>
    have hc := hds c (by simp)
    simp [takeDigits, hc, ih (fun c h => hds c (by simp [h]))]

theorem hexVal_hexChar (n : Nat) (h : n < 16) : hexVal (hexChar n) = some n := by
  by_cases h10 : n < 10
  · rw [hexChar, if_pos h10, hexVal, digitChar_toNat n h10,
      if_pos (show 48 ≤ 48 + n ∧ 48 + n ≤ 57 by omega)]
    simp only [Option.some.injEq]
    omega
  · rw [hexChar, if_neg h10, hexVal, charToNat_ofNat_small _ (by omega),
      if_neg (by omega), if_pos (by omega)]
    simp only [Option.some.injEq]
    omega


/-- The string-body parser inverts the serializer's escaping. -/
theorem parseStrBody_escape (s rest : List Char) :
    parseStrBody (escapeString s ++ '"' :: rest) = some (s, rest) := by
  induction s with
  | nil =>
    show parseStrBody (escapeString [] ++ '"' :: rest) = some ([], rest)
    rw [show escapeString [] = [] from rfl, List.nil_append, parseStrBody.eq_def]
    simp
  | cons c cs ih =>
    have hcs : escapeString (c :: cs) = escapeChar c ++ escapeString cs := by
      simp [escapeString]
    rw [hcs, List.append_assoc]
    unfold escapeChar
    split
    case isTrue hq =>
      subst hq
      rw [List.cons_append, List.cons_append, List.nil_append, parseStrBody.eq_def]
      simp [ih]
    case isFalse hq =>
      split
      case isTrue hb =>
        subst hb
        rw [List.cons_append, List.cons_append, List.nil_append, parseStrBody.eq_def]
        simp [ih]
      case isFalse hb =>
        split
        case isTrue hn =>
          subst hn
          rw [List.cons_append, List.cons_append, List.nil_append, parseStrBody.eq_def]
          simp [ih]
        case isFalse hn =>
          split
          case isTrue ht =>
            subst ht
            rw [List.cons_append, List.cons_append, List.nil_append, parseStrBody.eq_def]
            simp [ih]
          case isFalse ht =>
            split
            case isTrue hrr =>
              subst hrr
              rw [List.cons_append, List.cons_append, List.nil_append, parseStrBody.eq_def]
              simp [ih]
            case isFalse hrr =>
              split
              case isTrue h8 =>
                have hc8 : Char.ofNat 8 = c := by
                  rw [← h8, Char.ofNat_toNat]
                rw [List.cons_append, List.cons_append, List.nil_append, parseStrBody.eq_def]
                simp [ih]
                exact hc8
              case isFalse h8 =>
                split
                case isTrue h12 =>
                  have hc12 : Char.ofNat 12 = c := by
                    rw [← h12, Char.ofNat_toNat]
                  rw [List.cons_append, List.cons_append, List.nil_append, parseStrBody.eq_def]
                  simp [ih]
                  exact hc12
                case isFalse h12 =>
                  split
                  case isTrue h32 =>
                    have hdiv : c.toNat / 16 < 16 := by omega
                    have hmod : c.toNat % 16 < 16 := by omega
                    simp only [List.cons_append, List.nil_append]
                    rw [parseStrBody.eq_def]
                    simp only [reduceIte, reduceCtorEq, Char.reduceEq]
                    rw [hexVal_hexChar _ hdiv, hexVal_hexChar _ hmod]
                    simp only [show hexVal '0' = some 0 from rfl]
                    simp [ih]
                    rw [Nat.div_add_mod, Char.ofNat_toNat]
                  case isFalse h32 =>
                    rw [List.cons_append, parseStrBody.eq_def]
                    simp [ih, hq, hb, h32]


theorem ne_delims_of_isDigit (c : Char) (h : isDigit c = true) : c ≠ ']' ∧ c ≠ '\x7d' := by
  constructor <;> intro he <;> rw [he] at h <;> exact absurd h (by decide)

theorem serializeChars_head (j : Json) :
    ∃ c cs, serializeChars j = c :: cs ∧ c ≠ ']' ∧ c ≠ '\x7d' := by
  cases j with
  | null => exact ⟨'n', _, rfl, by decide, by decide⟩
  | bool b =>
    cases b
    · exact ⟨'f', _, rfl, by decide, by decide⟩
    · exact ⟨'t', _, rfl, by decide, by decide⟩
  | num i =>
    rw [show serializeChars (.num i) = intChars i from rfl, intChars]
    split
    · exact ⟨'-', _, rfl, by decide, by decide⟩
    · cases hnd : natDigits i.natAbs with
      | nil => exact absurd hnd (natDigits_ne_nil _)
      | cons c cs =>
        have hd : isDigit c = true :=
          natDigits_all_digits _ c (by rw [hnd]; exact List.mem_cons_self c cs)
        exact ⟨c, cs, rfl, (ne_delims_of_isDigit c hd).1, (ne_delims_of_isDigit c hd).2⟩
  | str s => exact ⟨'"', _, rfl, by decide, by decide⟩
  | arr xs =>
    cases xs
    · exact ⟨'[', _, rfl, by decide, by decide⟩
    · exact ⟨'[', _, rfl, by decide, by decide⟩
  | obj fs =>
    cases fs
    · exact ⟨'\x7b', _, rfl, by decide, by decide⟩
    · exact ⟨'\x7b', _, rfl, by decide, by decide⟩

theorem serializeChars_ne_nil (j : Json) : serializeChars j ≠ [] := by
  obtain ⟨c, cs, hc, -, -⟩ := serializeChars_head j
  simp [hc]

theorem serializeChars_length_pos (j : Json) : 1 ≤ (serializeChars j).length := by
  obtain ⟨c, cs, hc, -, -⟩ := serializeChars_head j
  simp [hc]

theorem noDigitHead_elems (xs : List Json) (rest : List Char) :
    noDigitHead (serializeElemsTail xs ++ ']' :: rest) := by
  cases xs with
  | nil => exact (by decide : isDigit ']' = false)
  | cons y ys => exact (by decide : isDigit ',' = false)

theorem noDigitHead_fields (fs : List (String × Json)) (rest : List Char) :
    noDigitHead (serializeFieldsTail fs ++ '\x7d' :: rest) := by
  cases fs with
  | nil => exact (by decide : isDigit '\x7d' = false)
  | cons kv ks => exact (by decide : isDigit ',' = false)

theorem parseVal_intChars (i : Int) (rest : List Char) (f : Nat) (hr : noDigitHead rest) :
    parseVal (f + 1) (intChars i ++ rest) = some (.num i, rest) := by
  obtain ⟨d, ds, hnd⟩ : ∃ d ds, natDigits i.natAbs = d :: ds := by
    cases hh : natDigits i.natAbs with
    | nil => exact absurd hh (natDigits_ne_nil _)
    | cons d ds => exact ⟨d, ds, rfl⟩
  have hd : isDigit d = true :=
    natDigits_all_digits _ d (by rw [hnd]; exact List.mem_cons_self d ds)
  have htd : takeDigits (d :: (ds ++ rest)) = (d :: ds, rest) := by
    have := takeDigits_exact (d :: ds) rest
      (by rw [← hnd]; exact natDigits_all_digits _) hr
    simpa using this
  have hval : digitsVal (d :: ds) = i.natAbs := by
    rw [← hnd, digitsVal_natDigits]
  rw [intChars]
  split
  case isTrue hneg =>
    rw [hnd, List.cons_append, List.cons_append, parseVal.eq_def]
    simp only [show isDigit '-' = false from rfl, Bool.false_eq_true, if_false,
      show ('-' = '-') = True from by simp, if_true, reduceIte, hd, htd, hval]
    have : -(Int.ofNat i.natAbs) = i := by
      simp only [Int.ofNat_eq_coe]
      omega
    rw [this]
  case isFalse hneg =>
    rw [hnd, List.cons_append, parseVal.eq_def]
    simp only [hd, reduceIte, htd, hval]
    have : Int.ofNat i.natAbs = i := by
      simp only [Int.ofNat_eq_coe]
      omega
    rw [this]

mutual

theorem parseVal_serialize (j : Json) (rest : List Char) (f : Nat)
    (hf : (serializeChars j).length ≤ f) (hr : noDigitHead rest) :
    parseVal f (serializeChars j ++ rest) = some (j, rest) := by
  cases j with
  | null =>
    cases f with
    | zero => simp [serializeChars] at hf
    | succ f =>
      rw [show serializeChars .null = ['n', 'u', 'l', 'l'] from rfl]
      simp only [List.cons_append, List.nil_append]
      rw [parseVal.eq_def]
      simp [show isDigit 'n' = false from by decide]
  | bool b =>
    cases f with
    | zero => cases b <;> simp [serializeChars] at hf
    | succ f =>
      cases b with
      | true =>
        rw [show serializeChars (.bool true) = ['t', 'r', 'u', 'e'] from rfl]
        simp only [List.cons_append, List.nil_append]
        rw [parseVal.eq_def]
        simp [show isDigit 't' = false from by decide]
      | false =>
        rw [show serializeChars (.bool false) = ['f', 'a', 'l', 's', 'e'] from rfl]
        simp only [List.cons_append, List.nil_append]
        rw [parseVal.eq_def]
        simp [show isDigit 'f' = false from by decide]
  | num i =>
    cases f with
    | zero =>
      have := serializeChars_length_pos (.num i)
      omega
    | succ f => exact parseVal_intChars i rest f hr
  | str s =>
    cases f with
    | zero =>
      have := serializeChars_length_pos (.str s)
      omega
    | succ f =>
      rw [show serializeChars (.str s) = '"' :: (escapeString s.data ++ ['"']) from rfl]
      simp only [List.cons_append, List.append_assoc, List.nil_append]
      rw [parseVal.eq_def]
      simp [show isDigit '"' = false from by decide, parseStrBody_escape]
  | arr xs =>
    cases xs with
    | nil =>
      cases f with
      | zero => simp [serializeChars] at hf
      | succ f =>
        rw [show serializeChars (.arr []) = ['[', ']'] from rfl]
        simp only [List.cons_append, List.nil_append]
        rw [parseVal.eq_def]
        simp [show isDigit '[' = false from by decide]
    | cons x xs =>
      cases f with
      | zero =>
        have := serializeChars_length_pos (.arr (x :: xs))
        omega
      | succ f =>
        have hlen : (serializeChars (.arr (x :: xs))).length
            = 2 + (serializeChars x).length + (serializeElemsTail xs).length := by
          simp [serializeChars]
          omega
        have hx1 : parseVal f (serializeChars x ++ (serializeElemsTail xs ++ ']' :: rest))
            = some (x, serializeElemsTail xs ++ ']' :: rest) :=
          parseVal_serialize x _ f (by omega) (noDigitHead_elems xs rest)
        have hx2 : parseElemsTail f (serializeElemsTail xs ++ ']' :: rest)
            = some (xs, rest) := by
          apply parseElemsTail_serialize xs rest f
          have := serializeChars_length_pos x
          omega
        obtain ⟨c, cs, hx, hne1, hne2⟩ := serializeChars_head x
        rw [show serializeChars (.arr (x :: xs))
            = '[' :: (serializeChars x ++ serializeElemsTail xs ++ [']']) from rfl]
        simp only [List.cons_append, List.append_assoc, List.nil_append]
        rw [parseVal.eq_def]
        rw [hx] at hx1 ⊢
        simp only [List.cons_append] at hx1 ⊢
        simp [show isDigit '[' = false from by decide, hne1, hx1, hx2]
  | obj fs =>
    cases fs with
    | nil =>
      cases f with
      | zero => simp [serializeChars] at hf
      | succ f =>
        rw [show serializeChars (.obj []) = ['\x7b', '\x7d'] from rfl]
        simp only [List.cons_append, List.nil_append]
        rw [parseVal.eq_def]
        simp [show isDigit '\x7b' = false from by decide]
    | cons kv fs =>
      cases kv with
      | mk k v =>
      cases f with
      | zero =>
        have := serializeChars_length_pos (.obj ((k, v) :: fs))
        omega
      | succ f =>
        have hsk : 2 ≤ (serializeStr k.data).length := by
          simp [serializeStr]
        have hlen : (serializeChars (.obj ((k, v) :: fs))).length
            = 2 + (serializeStr k.data).length + 1 + (serializeChars v).length
              + (serializeFieldsTail fs).length := by
          simp [serializeChars, serializeStr]
          omega
        have hv : parseVal f
            (serializeChars v ++ (serializeFieldsTail fs ++ '\x7d' :: rest))
            = some (v, serializeFieldsTail fs ++ '\x7d' :: rest) :=
          parseVal_serialize v _ f (by omega) (noDigitHead_fields fs rest)
        have hk : (⟨k.data⟩ : String) = k := rfl
        have hx1 : parseField f
            (serializeStr k.data ++ ':' :: serializeChars v
              ++ (serializeFieldsTail fs ++ '\x7d' :: rest))
            = some ((k, v), serializeFieldsTail fs ++ '\x7d' :: rest) := by
          cases f with
          | zero =>
            have := serializeChars_length_pos v
            omega
          | succ f =>
            simp only [serializeStr, List.cons_append, List.append_assoc, List.nil_append]
            rw [parseField.eq_def]
            have hv2 : parseVal f
                (serializeChars v ++ (serializeFieldsTail fs ++ '\x7d' :: rest))
                = some (v, serializeFieldsTail fs ++ '\x7d' :: rest) :=
              parseVal_serialize v _ f (by omega) (noDigitHead_fields fs rest)
            simp [parseStrBody_escape, hv2, hk]
        have hx2 : parseFieldsTail f (serializeFieldsTail fs ++ '\x7d' :: rest)
            = some (fs, rest) :=
          parseFieldsTail_serialize fs rest f (by omega)
        rw [show serializeChars (.obj ((k, v) :: fs))
            = '\x7b' :: (serializeStr k.data ++ ':' :: serializeChars v
              ++ serializeFieldsTail fs ++ ['\x7d']) from rfl]
        simp only [serializeStr, List.cons_append, List.append_assoc,
          List.nil_append] at hx1 ⊢
        rw [parseVal.eq_def]
        simp [show isDigit '\x7b' = false from by decide, hx1, hx2]
termination_by sizeOf j

theorem parseElemsTail_serialize (xs : List Json) (rest : List Char) (f : Nat)
    (hf : (serializeElemsTail xs).length + 1 ≤ f) :
    parseElemsTail f (serializeElemsTail xs ++ ']' :: rest) = some (xs, rest) := by
  cases xs with
  | nil =>
    cases f with
    | zero => omega
    | succ f =>
      rw [show serializeElemsTail [] = [] from rfl, List.nil_append,
        parseElemsTail.eq_def]
      simp
  | cons y ys =>
    cases f with
    | zero => omega
    | succ f =>
      have hlen : (serializeElemsTail (y :: ys)).length
          = 1 + (serializeChars y).length + (serializeElemsTail ys).length := by
        simp [serializeElemsTail]
        omega
      have hy : parseVal f (serializeChars y ++ (serializeElemsTail ys ++ ']' :: rest))
          = some (y, serializeElemsTail ys ++ ']' :: rest) :=
        parseVal_serialize y _ f (by omega) (noDigitHead_elems ys rest)
      have hys : parseElemsTail f (serializeElemsTail ys ++ ']' :: rest)
          = some (ys, rest) := by
        apply parseElemsTail_serialize ys rest f
        have := serializeChars_length_pos y
        omega
      rw [show serializeElemsTail (y :: ys)
          = ',' :: (serializeChars y ++ serializeElemsTail ys) from rfl]
      simp only [List.cons_append, List.append_assoc]
      rw [parseElemsTail.eq_def]
      simp [hy, hys]
termination_by sizeOf xs

theorem parseFieldsTail_serialize (fs : List (String × Json)) (rest : List Char) (f : Nat)
    (hf : (serializeFieldsTail fs).length + 1 ≤ f) :
    parseFieldsTail f (serializeFieldsTail fs ++ '\x7d' :: rest) = some (fs, rest) := by
  cases fs with
  | nil =>
    cases f with
    | zero => omega
    | succ f =>
      rw [show serializeFieldsTail [] = [] from rfl, List.nil_append,
        parseFieldsTail.eq_def]
      simp
  | cons kv fs =>
    cases kv with
    | mk k v =>
    cases f with
    | zero => omega
    | succ f =>
      have hsk : 2 ≤ (serializeStr k.data).length := by
        simp [serializeStr]
      have hlen : (serializeFieldsTail ((k, v) :: fs)).length
          = 1 + (serializeStr k.data).length + 1 + (serializeChars v).length
            + (serializeFieldsTail fs).length := by
        simp [serializeFieldsTail, serializeStr]
        omega
      have hk : (⟨k.data⟩ : String) = k := rfl
      have hkv : parseField f
          (serializeStr k.data ++ ':' :: serializeChars v
            ++ (serializeFieldsTail fs ++ '\x7d' :: rest))
          = some ((k, v), serializeFieldsTail fs ++ '\x7d' :: rest) := by
        cases f with
        | zero =>
          have := serializeChars_length_pos v
          omega
        | succ f =>
          simp only [serializeStr, List.cons_append, List.append_assoc, List.nil_append]
          rw [parseField.eq_def]
          have hv2 : parseVal f
              (serializeChars v ++ (serializeFieldsTail fs ++ '\x7d' :: rest))
              = some (v, serializeFieldsTail fs ++ '\x7d' :: rest) :=
            parseVal_serialize v _ f (by omega) (noDigitHead_fields fs rest)
          simp [parseStrBody_escape, hv2, hk]
      have hfs : parseFieldsTail f (serializeFieldsTail fs ++ '\x7d' :: rest)
          = some (fs, rest) :=
        parseFieldsTail_serialize fs rest f (by omega)
      rw [show serializeFieldsTail ((k, v) :: fs)
          = ',' :: (serializeStr k.data ++ ':' :: serializeChars v
            ++ serializeFieldsTail fs) from rfl]
      simp only [serializeStr, List.cons_append, List.append_assoc,
        List.nil_append] at hkv ⊢
      rw [parseFieldsTail.eq_def]
      simp [hkv, hfs]
termination_by sizeOf fs

end

/-- Round trip: parsing a serialized metadata value recovers it exactly. -/
theorem parse_stringify (j : Json) : Json.parse (Json.stringify j) = some j := by
  have h := parseVal_serialize j [] ((serializeChars j).length + 1) (by omega) trivial
  simp only [List.append_nil] at h
  rw [Json.parse, Json.stringify]
  rw [show (String.mk (serializeChars j)).data = serializeChars j from rfl, h]

theorem stringify_ne_empty (j : Json) : Json.stringify j ≠ "" := by
  intro he
  have : (Json.stringify j).data = serializeChars j := rfl
  rw [he] at this
  exact serializeChars_ne_nil j this.symm

theorem jsIntToString_zero : jsIntToString 0 = "0" := by
  rw [jsIntToString, intChars]
  norm_num
  rw [natDigits]
  norm_num
  rfl

theorem downloadTry_fetch_error (uri : String) (version : Option Int)
    (opt : UpdateOption) (env : ArchiveEnv) (e : String)
    (hfetch : env.fetch = .error e) :
    downloadTry uri version opt env
      = [.fetchStarted uri opt.headers] ++ installFailEvents (some e) := by
  unfold downloadTry
  rw [hfetch]

theorem downloadTry_empty_path (uri : String) (version : Option Int)
    (opt : UpdateOption) (env : ArchiveEnv)
    (hfetch : env.fetch = .ok "") :
    downloadTry uri version opt env
      = [.fetchStarted uri opt.headers]
        ++ installFailEvents (some ("Cannot download bundle file: " ++ "")) := by
  unfold downloadTry
  rw [hfetch]
  simp

theorem downloadTry_setup_error (uri : String) (version : Option Int)
    (opt : UpdateOption) (env : ArchiveEnv) (path e : String)
    (hfetch : env.fetch = .ok path) (hpath : path ≠ "")
    (hsetup : env.setupBundle = .error e) :
    downloadTry uri version opt env
      = [.fetchStarted uri opt.headers, .setupBundle path opt.extensionBundle]
        ++ installFailEvents (some e) := by
  unfold downloadTry
  rw [hfetch]
  simp [hpath, hsetup]

theorem downloadTry_setup_false (uri : String) (version : Option Int)
    (opt : UpdateOption) (env : ArchiveEnv) (path : String)
    (hfetch : env.fetch = .ok path) (hpath : path ≠ "")
    (hsetup : env.setupBundle = .ok false) :
    downloadTry uri version opt env
      = [.fetchStarted uri opt.headers, .setupBundle path opt.extensionBundle]
        ++ installFailEvents none := by
  unfold downloadTry
  rw [hfetch]
  simp [hpath, hsetup]

theorem downloadTry_happy (uri : String) (version : Option Int)
    (opt : UpdateOption) (env : ArchiveEnv) (path : String)
    (hfetch : env.fetch = .ok path) (hpath : path ≠ "")
    (hsetup : env.setupBundle = .ok true) :
    downloadTry uri version opt env
      = [.fetchStarted uri opt.headers, .setupBundle path opt.extensionBundle]
        ++ (if truthyVersion version then
              [.setCurrentVersion (jsIntToString (version.getD 0))]
            else [])
        ++ (match opt.metadata with
            | some m =>
              if jsonTruthy m then [.setUpdateMetadataWrite (setUpdateMetadata m)]
              else []
            | none => [])
        ++ [.updateSuccess]
        ++ (if opt.restartAfterInstall then
              [.scheduleRestart (jsOrDefault opt.restartDelay 300)]
            else []) := by
  unfold downloadTry
  rw [hfetch]
  simp only [hpath, hsetup, reduceIte, ne_eq, not_false_eq_true, List.cons_append,
    List.nil_append, List.append_assoc]
  try rfl

/-- Every terminal list of events of one invocation: precondition failure,
escaped store rejection, version-gate rejection, or the try block, possibly
after the version read. -/
theorem downloadBundleUri_events_cases (uri : String) (version : Option Int)
    (opt : UpdateOption) (env : ArchiveEnv) :
    (downloadBundleUri uri version opt env).events
        = installFailEvents (some "Please give a valid URL!")
    ∨ (downloadBundleUri uri version opt env).events = [.getVersionRead]
    ∨ (∃ n, (downloadBundleUri uri version opt env).events
        = [.getVersionRead] ++ installFailEvents (some (versionGateMessage n)))
    ∨ (∃ k, (k = ([] : List AEvent) ∨ k = [.getVersionRead])
        ∧ (downloadBundleUri uri version opt env).events
            = k ++ downloadTry uri version opt env) := by
  unfold downloadBundleUri
  by_cases huri : uri = ""
  · rw [if_pos huri]
    exact Or.inl rfl
  · rw [if_neg huri]
    by_cases hver : truthyVersion version = true
    · rw [if_pos hver]
      cases hread : env.getCurrentVersion with
      | error e => exact Or.inr (Or.inl rfl)
      | ok raw =>
        by_cases hle : jsLe (version.getD 0) (jsPlus raw) = true
        · refine Or.inr (Or.inr (Or.inl ⟨jsPlus raw, ?_⟩))
          simp [hle, installFailEvents]
        · refine Or.inr (Or.inr (Or.inr ⟨[.getVersionRead], Or.inr rfl, ?_⟩))
          simp [hle]
    · rw [if_neg hver]
      exact Or.inr (Or.inr (Or.inr ⟨[], Or.inl rfl, rfl⟩))

/-- Claim C1 (code bug in `removeBundle`): evaluating the embedded code shows
that after a successful deletion with `restartAfter` unset, no version reset
and no restart occur, contradicting the claim that the stored version is
reset to 0 whenever deletion succeeds; with the flag set, the restart is
scheduled at 300ms and the version reset to "0"; on failed deletion nothing
happens. -/
theorem removeBundle_eval_at_divergence :
    removeBundle false (.ok true) = [.deleteBundle]
      ∧ removeBundle true (.ok true)
          = [.deleteBundle, .scheduleRestart 300, .setCurrentVersion "0"]
      ∧ removeBundle true (.error "delete failed") = [.deleteBundle]
      ∧ removeBundle false (.error "delete failed") = [.deleteBundle] := by
  refine ⟨rfl, ?_, rfl, rfl⟩
  simp [removeBundle, jsIntToString_zero]

/-- Claim C2, counterexample to the original wording: a supplied declared
version of 0 is falsy in the source's `if (version)` check, so with declared
version 0 and stored version 5 (0 <= 5) the transport IS invoked, the update
succeeds, and the failure callback never fires. -/
theorem downloadBundleUri_gate_skips_zero_version :
    ((downloadBundleUri "https://host/b.zip" (some 0) optPlain envHappy).events
        = [.fetchStarted "https://host/b.zip" none,
           .setupBundle "/tmp/bundle.zip" none, .updateSuccess])
      ∧ List.countP isUpdateFail
          (downloadBundleUri "https://host/b.zip" (some 0) optPlain envHappy).events = 0
      ∧ (0 : Int) ≤ 5 := by
  refine ⟨?_, ?_, by norm_num⟩ <;> rfl

/-- Claim C2 (amended): for every archive-update invocation with a non-empty
uri and a supplied nonzero declared version at most the current version read
from the version store, the orchestrator emits exactly the version read and
a single failure notification (with its log entry) whose message carries the
current version; neither the transport nor the activation service is invoked
and no version or metadata write occurs. -/
theorem downloadBundleUri_version_gate_rejects (uri : String) (v : Int) (opt : UpdateOption) (env : ArchiveEnv)
    (raw : String) (huri : uri ≠ "") (hv : v ≠ 0)
    (hread : env.getCurrentVersion = .ok raw)
    (hle : jsLe v (jsPlus raw) = true) :
    downloadBundleUri uri (some v) opt env
      = { events := [.getVersionRead,
            .updateFail (some (jsStringifyString (versionGateMessage (jsPlus raw)))),
            .logError (some (jsStringifyString (versionGateMessage (jsPlus raw))))],
          rejected := none } := by
  unfold downloadBundleUri
  rw [if_neg huri]
  have hver : truthyVersion (some v) = true := by
    simp [truthyVersion, hv]
  rw [if_pos hver, hread]
  simp [hle, installFailEvents]

theorem downloadBundleUri_version_gate_rejects_witness :
    downloadBundleUri "https://host/b.zip" (some 1) optPlain envCurrent3
      = { events := [.getVersionRead,
            .updateFail (some (jsStringifyString (versionGateMessage (jsPlus "3")))),
            .logError (some (jsStringifyString (versionGateMessage (jsPlus "3"))))],
          rejected := none } :=
  downloadBundleUri_version_gate_rejects "https://host/b.zip" 1 optPlain envCurrent3 "3"
    (by decide) (by decide) rfl (by decide)

/-- Claim C3, counterexample to the original wording: the version gate runs
before the try block, so a version-store read rejection escapes as a
rejection of the orchestrator's returned promise, with no failure-callback
invocation. -/
theorem downloadBundleUri_store_read_rejection :
    (downloadBundleUri "https://host/b.zip" (some 2) optPlain envStoreDown).rejected
        = some "version store read failed"
      ∧ List.countP isUpdateFail
          (downloadBundleUri "https://host/b.zip" (some 2) optPlain envStoreDown).events
        = 0 := by
  exact ⟨rfl, rfl⟩

theorem downloadTry_fail_log_balance (uri : String) (version : Option Int)
    (opt : UpdateOption) (env : ArchiveEnv) :
    List.countP isUpdateFail (downloadTry uri version opt env)
      = List.countP isLogError (downloadTry uri version opt env) := by
  cases hfetch : env.fetch with
  | error e =>
    rw [downloadTry_fetch_error _ _ _ _ _ hfetch]
    simp [installFailEvents, isUpdateFail, isLogError]
  | ok path =>
    by_cases hpath : path = ""
    · subst hpath
      rw [downloadTry_empty_path _ _ _ _ hfetch]
      simp [installFailEvents, isUpdateFail, isLogError]
    · cases hsetup : env.setupBundle with
      | error e =>
        rw [downloadTry_setup_error _ _ _ _ _ _ hfetch hpath hsetup]
        simp [installFailEvents, isUpdateFail, isLogError]
      | ok b =>
        cases b with
        | false =>
          rw [downloadTry_setup_false _ _ _ _ _ hfetch hpath hsetup]
          simp [installFailEvents, isUpdateFail, isLogError]
        | true =>
          rw [downloadTry_happy _ _ _ _ _ hfetch hpath hsetup]
          cases opt.metadata <;> split_ifs <;>
            simp [isUpdateFail, isLogError, List.countP_append, List.countP_cons] <;>
            split <;> simp [isUpdateFail, isLogError]

/-- Claim C3 (amended): provided the version-store read resolves whenever a
truthy declared version forces it, every `downloadBundleUri` invocation
resolves (never rejects), and every failure is delivered via the updateFail
callback paired with exactly one log entry (their counts coincide on every
path). -/
theorem downloadBundleUri_always_resolves (uri : String) (version : Option Int) (opt : UpdateOption)
    (env : ArchiveEnv)
    (hstore : truthyVersion version = true → isOkResult env.getCurrentVersion = true) :
    (downloadBundleUri uri version opt env).rejected = none
      ∧ List.countP isUpdateFail (downloadBundleUri uri version opt env).events
        = List.countP isLogError (downloadBundleUri uri version opt env).events := by
  unfold downloadBundleUri
  by_cases huri : uri = ""
  · rw [if_pos huri]
    exact ⟨rfl, rfl⟩
  · rw [if_neg huri]
    by_cases hver : truthyVersion version = true
    · rw [if_pos hver]
      cases hread : env.getCurrentVersion with
      | error e =>
        rw [hread] at hstore
        exact absurd (hstore hver) (by simp [isOkResult])
      | ok raw =>
        by_cases hle : jsLe (version.getD 0) (jsPlus raw) = true
        · constructor
          · simp [hle]
          · simp [hle, installFailEvents, isUpdateFail, isLogError]
        · constructor
          · simp [hle]
          · simp only [hle]
            simp only [Bool.false_eq_true, if_false, List.countP_cons, List.countP_append]
            simp [isUpdateFail, isLogError, downloadTry_fail_log_balance]
    · rw [if_neg hver]
      exact ⟨rfl, downloadTry_fail_log_balance uri version opt env⟩

theorem downloadBundleUri_always_resolves_witness :
    (downloadBundleUri "https://host/b.zip" (some 1) optPlain envCurrent3).rejected = none
      ∧ List.countP isUpdateFail
          (downloadBundleUri "https://host/b.zip" (some 1) optPlain envCurrent3).events
        = List.countP isLogError
            (downloadBundleUri "https://host/b.zip" (some 1) optPlain envCurrent3).events :=
  downloadBundleUri_always_resolves "https://host/b.zip" (some 1) optPlain envCurrent3 (fun _ => rfl)

/-- Claim C4: for every archive-update invocation in which the activation
service is invoked and returns false, the failure callback fires exactly
once, the success callback never fires, no version or metadata write occurs,
and no restart is scheduled. -/
theorem downloadBundleUri_activation_false_only_fail (uri : String) (version : Option Int) (opt : UpdateOption)
    (env : ArchiveEnv)
    (hsetup : env.setupBundle = .ok false)
    (hreach : 0 < List.countP isSetupBundle
        (downloadBundleUri uri version opt env).events) :
    List.countP isUpdateFail (downloadBundleUri uri version opt env).events = 1
      ∧ List.countP isUpdateSuccess (downloadBundleUri uri version opt env).events = 0
      ∧ List.countP isSetCurrentVersion (downloadBundleUri uri version opt env).events = 0
      ∧ List.countP isSetUpdateMetadataWrite
          (downloadBundleUri uri version opt env).events = 0
      ∧ List.countP isScheduleRestartA (downloadBundleUri uri version opt env).events = 0 := by
  rcases downloadBundleUri_events_cases uri version opt env with h | h | ⟨n, h⟩ | ⟨k, hk, h⟩
  · rw [h] at hreach
    simp [installFailEvents, isSetupBundle] at hreach
  · rw [h] at hreach
    simp [isSetupBundle] at hreach
  · rw [h] at hreach
    simp [installFailEvents, isSetupBundle] at hreach
  · cases hfetch : env.fetch with
    | error e =>
      rw [h, downloadTry_fetch_error _ _ _ _ _ hfetch] at hreach
      rcases hk with rfl | rfl <;>
        simp [installFailEvents, isSetupBundle] at hreach
    | ok path =>
      by_cases hpath : path = ""
      · subst hpath
        rw [h, downloadTry_empty_path _ _ _ _ hfetch] at hreach
        rcases hk with rfl | rfl <;>
          simp [installFailEvents, isSetupBundle] at hreach
      · rw [h, downloadTry_setup_false _ _ _ _ _ hfetch hpath hsetup]
        rcases hk with rfl | rfl <;>
          simp [installFailEvents, isUpdateFail, isUpdateSuccess, isSetCurrentVersion,
            isSetUpdateMetadataWrite, isScheduleRestartA]

theorem downloadBundleUri_activation_false_only_fail_witness :
    List.countP isUpdateFail
        (downloadBundleUri "https://host/b.zip" none optPlain envSetupFalse).events = 1
      ∧ List.countP isUpdateSuccess
          (downloadBundleUri "https://host/b.zip" none optPlain envSetupFalse).events = 0
      ∧ List.countP isSetCurrentVersion
          (downloadBundleUri "https://host/b.zip" none optPlain envSetupFalse).events = 0
      ∧ List.countP isSetUpdateMetadataWrite
          (downloadBundleUri "https://host/b.zip" none optPlain envSetupFalse).events = 0
      ∧ List.countP isScheduleRestartA
          (downloadBundleUri "https://host/b.zip" none optPlain envSetupFalse).events = 0 :=
  downloadBundleUri_activation_false_only_fail "https://host/b.zip" none optPlain envSetupFalse rfl (by decide)

/-- Claim C5, counterexample to the original wording: with a supplied
declared version 0 and a supplied (falsy) metadata payload 0, the update
succeeds but neither the version nor the metadata is persisted, because the
source guards both writes with JavaScript truthiness. -/
theorem downloadBundleUri_success_skips_falsy_writes :
    List.countP isUpdateSuccess
        (downloadBundleUri "https://host/b.zip" (some 0) optMetaZero envHappy).events = 1
      ∧ List.countP isSetCurrentVersion
          (downloadBundleUri "https://host/b.zip" (some 0) optMetaZero envHappy).events = 0
      ∧ List.countP isSetUpdateMetadataWrite
          (downloadBundleUri "https://host/b.zip" (some 0) optMetaZero envHappy).events
        = 0 :=
  ⟨rfl, rfl, rfl⟩

/-- Claim C5 (amended): for every archive-update invocation with a supplied
nonzero declared version and a supplied truthy metadata payload, if the
transport is invoked and resolves to a non-empty path and the activation
service returns true, the success callback fires exactly once, the declared
version is persisted exactly once and the metadata is serialized and
persisted exactly once. -/
theorem downloadBundleUri_success_persists_once (uri : String) (v : Int) (m : Json) (opt : UpdateOption)
    (env : ArchiveEnv) (path : String)
    (hv : v ≠ 0) (hm : opt.metadata = some m) (hmt : jsonTruthy m = true)
    (hfetch : env.fetch = .ok path) (hpath : path ≠ "")
    (hsetup : env.setupBundle = .ok true)
    (hreach : 0 < List.countP isFetchStarted
        (downloadBundleUri uri (some v) opt env).events) :
    List.countP isUpdateSuccess (downloadBundleUri uri (some v) opt env).events = 1
      ∧ List.countP isSetCurrentVersion
          (downloadBundleUri uri (some v) opt env).events = 1
      ∧ List.countP isSetUpdateMetadataWrite
          (downloadBundleUri uri (some v) opt env).events = 1
      ∧ AEvent.setCurrentVersion (jsIntToString v)
          ∈ (downloadBundleUri uri (some v) opt env).events
      ∧ AEvent.setUpdateMetadataWrite (setUpdateMetadata m)
          ∈ (downloadBundleUri uri (some v) opt env).events := by
  have hver : truthyVersion (some v) = true := by
    simp [truthyVersion, hv]
  rcases downloadBundleUri_events_cases uri (some v) opt env with h | h | ⟨n, h⟩ | ⟨k, hk, h⟩
  · rw [h] at hreach
    simp [installFailEvents, isFetchStarted] at hreach
  · rw [h] at hreach
    simp [isFetchStarted] at hreach
  · rw [h] at hreach
    simp [installFailEvents, isFetchStarted] at hreach
  · rw [h, downloadTry_happy _ _ _ _ _ hfetch hpath hsetup]
    rcases hk with rfl | rfl <;>
      simp [hver, hm, hmt, isUpdateSuccess, isSetCurrentVersion,
        isSetUpdateMetadataWrite, List.countP_append, List.countP_cons] <;>
      constructor <;> split <;> simp [isUpdateSuccess, isSetCurrentVersion,
        isSetUpdateMetadataWrite]

theorem downloadBundleUri_success_persists_once_witness :
    List.countP isUpdateSuccess
        (downloadBundleUri "https://host/b.zip" (some 5) optMetaObj envCurrent3).events = 1
      ∧ List.countP isSetCurrentVersion
          (downloadBundleUri "https://host/b.zip" (some 5) optMetaObj envCurrent3).events = 1
      ∧ List.countP isSetUpdateMetadataWrite
          (downloadBundleUri "https://host/b.zip" (some 5) optMetaObj envCurrent3).events = 1
      ∧ AEvent.setCurrentVersion (jsIntToString 5)
          ∈ (downloadBundleUri "https://host/b.zip" (some 5) optMetaObj envCurrent3).events
      ∧ AEvent.setUpdateMetadataWrite (setUpdateMetadata (.obj [("flag", .bool true)]))
          ∈ (downloadBundleUri "https://host/b.zip" (some 5) optMetaObj envCurrent3).events :=
  downloadBundleUri_success_persists_once "https://host/b.zip" 5 (.obj [("flag", .bool true)]) optMetaObj envCurrent3
    "/tmp/bundle.zip" (by decide) rfl rfl rfl (by decide) rfl (by decide)

/-- Claim C10: in every archive-update invocation with restartAfterInstall
set that reaches the success callback, exactly one restart is scheduled; a
caller-supplied restartDelay of 0 is treated as unset, scheduling the
default 300ms restart, while any nonzero delay is used as given. -/
theorem downloadBundleUri_restart_delay_zero_default (uri : String) (version : Option Int) (opt : UpdateOption)
    (env : ArchiveEnv)
    (hrestart : opt.restartAfterInstall = true)
    (hsucc : 0 < List.countP isUpdateSuccess
        (downloadBundleUri uri version opt env).events) :
    List.countP isScheduleRestartA (downloadBundleUri uri version opt env).events = 1
      ∧ (opt.restartDelay = some 0 →
          AEvent.scheduleRestart 300 ∈ (downloadBundleUri uri version opt env).events)
      ∧ (∀ d, opt.restartDelay = some d → d ≠ 0 →
          AEvent.scheduleRestart d ∈ (downloadBundleUri uri version opt env).events) := by
  rcases downloadBundleUri_events_cases uri version opt env with h | h | ⟨n, h⟩ | ⟨k, hk, h⟩
  · rw [h] at hsucc
    simp [installFailEvents, isUpdateSuccess] at hsucc
  · rw [h] at hsucc
    simp [isUpdateSuccess] at hsucc
  · rw [h] at hsucc
    simp [installFailEvents, isUpdateSuccess] at hsucc
  · cases hfetch : env.fetch with
    | error e =>
      rw [h, downloadTry_fetch_error _ _ _ _ _ hfetch] at hsucc
      rcases hk with rfl | rfl <;>
        simp [installFailEvents, isUpdateSuccess] at hsucc
    | ok path =>
      by_cases hpath : path = ""
      · subst hpath
        rw [h, downloadTry_empty_path _ _ _ _ hfetch] at hsucc
        rcases hk with rfl | rfl <;>
          simp [installFailEvents, isUpdateSuccess] at hsucc
      · cases hsetup : env.setupBundle with
        | error e =>
          rw [h, downloadTry_setup_error _ _ _ _ _ _ hfetch hpath hsetup] at hsucc
          rcases hk with rfl | rfl <;>
            simp [installFailEvents, isUpdateSuccess] at hsucc
        | ok b =>
          cases b with
          | false =>
            rw [h, downloadTry_setup_false _ _ _ _ _ hfetch hpath hsetup] at hsucc
            rcases hk with rfl | rfl <;>
              simp [installFailEvents, isUpdateSuccess] at hsucc
          | true =>
            rw [h, downloadTry_happy _ _ _ _ _ hfetch hpath hsetup]
            refine ⟨?_, ?_, ?_⟩
            · rcases hk with rfl | rfl <;>
                (cases opt.metadata) <;>
                simp [hrestart, isScheduleRestartA, List.countP_append,
                  List.countP_cons] <;>
                split_ifs <;> simp [isScheduleRestartA]
            · intro h0
              rcases hk with rfl | rfl <;>
                simp [hrestart, h0, jsOrDefault, List.mem_append]
            · intro d hd hdne
              rcases hk with rfl | rfl <;>
                simp [hrestart, hd, hdne, jsOrDefault, List.mem_append]

theorem downloadBundleUri_restart_delay_zero_default_witness :
    List.countP isScheduleRestartA
        (downloadBundleUri "https://host/b.zip" none optRestartZero envHappy).events = 1
      ∧ (optRestartZero.restartDelay = some 0 →
          AEvent.scheduleRestart 300
            ∈ (downloadBundleUri "https://host/b.zip" none optRestartZero envHappy).events)
      ∧ (∀ d, optRestartZero.restartDelay = some d → d ≠ 0 →
          AEvent.scheduleRestart d
            ∈ (downloadBundleUri "https://host/b.zip" none optRestartZero envHappy).events) :=
  downloadBundleUri_restart_delay_zero_default "https://host/b.zip" none optRestartZero envHappy rfl (by decide)

/-- Claim C6, counterexample to the original wording: the empty stored
string fails to deserialize (`Json.parse "" = none`), yet `getUpdateMetadata`
silently substitutes the default `null` instead of producing the parse
error, because the source treats any falsy stored string as absent. -/
theorem getUpdateMetadata_empty_string_silent_null : getUpdateMetadata (some "") = .ok .null ∧ Json.parse "" = none :=
  ⟨rfl, rfl⟩

/-- Claim C6 (amended): persisting any JSON-representable metadata value via
`setUpdateMetadata` and reading it back via `getUpdateMetadata` yields the
value unchanged; and any non-empty stored string that fails to deserialize
produces the distinct parse error, never a silently substituted default. -/
theorem metadata_roundtrip_and_parse_error :
    (∀ m : Json, getUpdateMetadata (some (setUpdateMetadata m)) = .ok m)
      ∧ (∀ s : String, s ≠ "" → Json.parse s = none →
          getUpdateMetadata (some s) = .error "Error parsing metadata") := by
  constructor
  · intro m
    simp [getUpdateMetadata, setUpdateMetadata, stringify_ne_empty m, parse_stringify m]
  · intro s hs hp
    simp [getUpdateMetadata, hs, hp]

theorem metadata_roundtrip_and_parse_error_witness :
    getUpdateMetadata (some (setUpdateMetadata (.num 42))) = .ok (.num 42)
      ∧ getUpdateMetadata (some "x") = .error "Error parsing metadata" :=
  ⟨metadata_roundtrip_and_parse_error.1 (.num 42),
    metadata_roundtrip_and_parse_error.2 "x" (by decide) rfl⟩

/-- Claim C7: in every `checkForGitUpdate` invocation that reaches the
configuration and branch queries and in which both resolve, pull is invoked
exactly once and clone never when both values are truthy, and clone is
invoked exactly once and pull never otherwise: the two branches are mutually
exclusive and each terminal per invocation. -/
theorem checkForGitUpdate_pull_xor_clone (o : UpdateGitOption) (env : GitEnv)
    (c b : Option String)
    (hu : o.url ≠ "") (hbp : o.bundlePath ≠ "")
    (hc : env.getConfig = .ok c) (hb : env.getBranchName = .ok b) :
    ((truthyStrOpt b && c.isSome) = true →
        List.countP isPullStarted (checkForGitUpdate o env).events = 1
          ∧ List.countP isCloneStarted (checkForGitUpdate o env).events = 0)
      ∧ ((truthyStrOpt b && c.isSome) = false →
        List.countP isCloneStarted (checkForGitUpdate o env).events = 1
          ∧ List.countP isPullStarted (checkForGitUpdate o env).events = 0) := by
  have hpre : ¬(o.url = "" ∨ o.bundlePath = "") := by
    simp [hu, hbp]
  constructor
  · intro ht
    unfold checkForGitUpdate checkForGitUpdateInner
    rw [if_neg hpre, hc, hb]
    cases hp : env.pullUpdate with
    | error e =>
      simp [ht, hp, isPullStarted, isCloneStarted]
    | ok p =>
      by_cases hps : p.success = true <;>
        simp [ht, hp, hps, isPullStarted, isCloneStarted] <;>
        split_ifs <;> simp [isPullStarted, isCloneStarted]
  · intro ht
    unfold checkForGitUpdate checkForGitUpdateInner
    rw [if_neg hpre, hc, hb]
    cases hcl : env.cloneRepo with
    | error e =>
      simp [ht, hcl, isPullStarted, isCloneStarted]
    | ok cl =>
      by_cases hcs : (cl.success && truthyStrOpt cl.bundle) = true
      · cases hse : env.setExactBundlePath with
        | error e =>
          simp [ht, hcl, hcs, hse, isPullStarted, isCloneStarted]
        | ok sb =>
          simp [ht, hcl, hcs, hse, isPullStarted, isCloneStarted] <;>
            split_ifs <;> simp [isPullStarted, isCloneStarted]
      · simp [ht, hcl, hcs, isPullStarted, isCloneStarted]

theorem checkForGitUpdate_pull_xor_clone_witness :
    List.countP isPullStarted (checkForGitUpdate gitOptMain gitEnvPull).events = 1
      ∧ List.countP isCloneStarted (checkForGitUpdate gitOptMain gitEnvPull).events = 0 :=
  (checkForGitUpdate_pull_xor_clone gitOptMain gitEnvPull (some "remote.origin.url") (some "main")
    (by decide) (by decide) rfl rfl).1 (by decide)

theorem checkForGitUpdateInner_no_finish (o : UpdateGitOption) (env : GitEnv) :
    List.countP isOnFinishProgress (checkForGitUpdateInner o env).1 = 0 := by
  unfold checkForGitUpdateInner
  by_cases hpre : o.url = "" ∨ o.bundlePath = ""
  · simp [hpre]
  · rw [if_neg hpre]
    cases hc : env.getConfig with
    | error e => simp [isOnFinishProgress]
    | ok c =>
      cases hb : env.getBranchName with
      | error e => simp [isOnFinishProgress]
      | ok b =>
        by_cases ht : (truthyStrOpt b && c.isSome) = true
        · cases hp : env.pullUpdate with
          | error e => simp [ht, isOnFinishProgress]
          | ok p =>
            by_cases hps : p.success = true <;>
              simp [ht, hps, isOnFinishProgress] <;>
              split_ifs <;> simp [isOnFinishProgress]
        · cases hcl : env.cloneRepo with
          | error e => simp [ht, isOnFinishProgress]
          | ok cl =>
            by_cases hcs : (cl.success && truthyStrOpt cl.bundle) = true
            · cases hse : env.setExactBundlePath with
              | error e => simp [ht, hcs, isOnFinishProgress]
              | ok sb =>
                simp [ht, hcs, isOnFinishProgress] <;>
                  split_ifs <;> simp [isOnFinishProgress]
            · simp [ht, hcs, isOnFinishProgress]

/-- Claim C8: for every invocation of `checkForGitUpdate`, over every
environment (pull or clone branch, precondition failure, or any collaborator
rejection), the onFinishProgress callback is invoked exactly once. -/
theorem checkForGitUpdate_finish_exactly_once (o : UpdateGitOption) (env : GitEnv) :
    List.countP isOnFinishProgress (checkForGitUpdate o env).events = 1 := by
  unfold checkForGitUpdate
  simp only [List.countP_append]
  rw [checkForGitUpdateInner_no_finish o env]
  cases hr2 : (checkForGitUpdateInner o env).2 <;>
    simp [isOnFinishProgress]

theorem checkForGitUpdateInner_exc_no_outcome (o : UpdateGitOption) (env : GitEnv)
    (e : String) (hexc : (checkForGitUpdateInner o env).2 = some e) :
    List.countP isOnCloneFailed (checkForGitUpdateInner o env).1 = 0
      ∧ List.countP isOnPullSuccess (checkForGitUpdateInner o env).1 = 0
      ∧ List.countP isOnPullFailed (checkForGitUpdateInner o env).1 = 0
      ∧ List.countP isOnCloneSuccess (checkForGitUpdateInner o env).1 = 0 := by
  unfold checkForGitUpdateInner at hexc ⊢
  by_cases hpre : o.url = "" ∨ o.bundlePath = ""
  · simp [hpre]
  · rw [if_neg hpre] at hexc ⊢
    cases hc : env.getConfig with
    | error e2 =>
      simp [isOnCloneFailed, isOnPullSuccess, isOnPullFailed, isOnCloneSuccess]
    | ok c =>
      rw [hc] at hexc
      cases hb : env.getBranchName with
      | error e2 =>
        simp [isOnCloneFailed, isOnPullSuccess, isOnPullFailed, isOnCloneSuccess]
      | ok b =>
        rw [hb] at hexc
        by_cases ht : (truthyStrOpt b && c.isSome) = true
        · cases hp : env.pullUpdate with
          | error e2 =>
            simp [ht, isOnCloneFailed, isOnPullSuccess, isOnPullFailed, isOnCloneSuccess]
          | ok p =>
            rw [hp] at hexc
            simp only [ht, if_true, Bool.true_eq] at hexc
            by_cases hps : p.success = true <;> simp [hps] at hexc
        · cases hcl : env.cloneRepo with
          | error e2 =>
            simp [ht, isOnCloneFailed, isOnPullSuccess, isOnPullFailed, isOnCloneSuccess]
          | ok cl =>
            rw [hcl] at hexc
            by_cases hcs : (cl.success && truthyStrOpt cl.bundle) = true
            · cases hse : env.setExactBundlePath with
              | error e2 =>
                simp [ht, hcs, isOnCloneFailed, isOnPullSuccess, isOnPullFailed,
                  isOnCloneSuccess]
              | ok sb =>
                rw [hse] at hexc
                simp [ht, hcs] at hexc
            · simp [ht, hcs] at hexc

/-- Claim C9: no exception escapes `checkForGitUpdate`; an empty url or
bundlePath yields exactly one onCloneFailed notification with the
descriptive message followed by onFinishProgress; and whenever any exception
is raised inside the flow (including during a pull), onCloneFailed fires
exactly once and no other outcome callback fires. -/
theorem checkForGitUpdate_failures_via_onCloneFailed (o : UpdateGitOption) (env : GitEnv) :
    (checkForGitUpdate o env).rejected = none
      ∧ ((o.url = "" ∨ o.bundlePath = "") →
          (checkForGitUpdate o env).events
            = [.onCloneFailed gitPreconditionMessage, .onFinishProgress])
      ∧ (∀ e, (checkForGitUpdateInner o env).2 = some e →
          List.countP isOnCloneFailed (checkForGitUpdate o env).events = 1
            ∧ List.countP isOnPullSuccess (checkForGitUpdate o env).events = 0
            ∧ List.countP isOnPullFailed (checkForGitUpdate o env).events = 0
            ∧ List.countP isOnCloneSuccess (checkForGitUpdate o env).events = 0) := by
  refine ⟨rfl, ?_, ?_⟩
  · intro hpre
    unfold checkForGitUpdate checkForGitUpdateInner
    rw [if_pos hpre]
    rfl
  · intro e hexc
    obtain ⟨h1, h2, h3, h4⟩ := checkForGitUpdateInner_exc_no_outcome o env e hexc
    unfold checkForGitUpdate
    simp only [hexc, List.countP_append]
    simp [h1, h2, h3, h4, isOnCloneFailed, isOnPullSuccess,
      isOnPullFailed, isOnCloneSuccess]

theorem checkForGitUpdate_failures_via_onCloneFailed_witness :
    (checkForGitUpdate gitOptNoUrl gitEnvPull).rejected = none
      ∧ (checkForGitUpdate gitOptNoUrl gitEnvPull).events
          = [.onCloneFailed gitPreconditionMessage, .onFinishProgress]
      ∧ List.countP isOnCloneFailed (checkForGitUpdate gitOptNoUrl gitEnvPull).events = 1
      ∧ List.countP isOnPullSuccess (checkForGitUpdate gitOptNoUrl gitEnvPull).events = 0
      ∧ List.countP isOnPullFailed (checkForGitUpdate gitOptNoUrl gitEnvPull).events = 0
      ∧ List.countP isOnCloneSuccess
          (checkForGitUpdate gitOptNoUrl gitEnvPull).events = 0 := by
  obtain ⟨ha, hb, hc⟩ := checkForGitUpdate_failures_via_onCloneFailed gitOptNoUrl gitEnvPull
  obtain ⟨h1, h2, h3, h4⟩ := hc gitPreconditionMessage rfl
  exact ⟨ha, hb (Or.inl rfl), h1, h2, h3, h4⟩
